import Mathlib

/-!
Shallow embedding of the go-xmpp2 XMPP client core: the gated outbound
forwarder and inbound dispatcher of layer 3, the byte transport loop of
layer 1, the filter-stack manager, the status manager, the roster
extension manager, and the extension-registration phase of the
constructor.  Each concurrent loop of the source is modelled as a
deterministic transition function over an explicit trace of the events
the loop can observe; `none` marks traces that the Go scheduler could
not realise (for example taking a value from a nil channel, or events
addressed to a loop that has already exited).
-/

namespace Xmpp2

/-! ## Data model (stanza.go, xmpp.go) -/

/-- Connection status: `type Status int` in xmpp.go, seven constants. -/
abbrev Status := Int

def StatusUnconnected : Status := 0

def StatusConnected : Status := 1

def StatusConnectedTls : Status := 2

def StatusAuthenticated : Status := 3

def StatusBound : Status := 4

def StatusRunning : Status := 5

def StatusShutdown : Status := 6

/-- The three stanza variants of the polymorphic `Stanza` interface. -/
inductive StanzaKind
  | iq
  | message
  | presence
deriving DecidableEq

/-- A roster item, roster.go `RosterItem` (groups omitted: no claim uses them). -/
structure RosterItem where
  jid : String
  subscription : String
  name : String
deriving DecidableEq

/-- A recognised nested payload materialised into `Header.Nested`. -/
inductive NestedElem
  | rosterQuery (items : List RosterItem)
  | bindPayload (jid : Option String)
  | generic (ns loc : String)
deriving DecidableEq

/-- A stanza together with the header fields the claims mention:
variant tag, `Header.Id`, `Header.Type` and `Header.Nested`. -/
structure StanzaM where
  kind : StanzaKind
  id : String
  typ : String
  nested : List NestedElem
deriving DecidableEq

/-! ## Outbound gated forwarder: `writeStream` (layer3.go) -/

/-- One event observed by the `writeStream` select loop: a command on
the control channel (`0` = deny, `1` = allow, `-1` = abort, exactly the
ints of the source), a value taken from the application queue `cliIn`
(`none` models a nil `Stanza` interface value, which the loop drops
with a log entry), or the closing of `cliIn`. -/
inductive WEvent
  | ctrl (c : Int)
  | recv (x : Option StanzaM)
  | closedIn
deriving DecidableEq

/-- Observable outcome of a `writeStream` run: the values forwarded to
the XML codec channel `srvOut`, in order, and whether the loop has
exited (running the deferred `close(srvOut)`). -/
structure WResult where
  sent : List StanzaM
  closed : Bool
deriving DecidableEq

/-- Deterministic run of the `writeStream` loop over an event trace.
`none` marks an unrealisable trace: taking a value from the application
queue while `input` is nil (a receive from a nil channel blocks
forever), observing the closing of a nil channel, or events arriving
after the loop has exited. -/
def writeRun (enabled : Bool) : List WEvent → Option WResult
  | [] => some { sent := [], closed := false }
  | WEvent.ctrl c :: r =>
    if c = 0 then writeRun false r
    else if c = 1 then writeRun true r
    else if c = -1 then
      (if r = [] then some { sent := [], closed := true } else none)
    else writeRun enabled r
  | WEvent.recv x :: r =>
    if enabled then
      match x with
      | none => writeRun true r
      | some s =>
        Option.map (fun w => { sent := s :: w.sent, closed := w.closed })
          (writeRun true r)
    else none
  | WEvent.closedIn :: r =>
    if enabled then
      (if r = [] then some { sent := [], closed := true } else none)
    else none

/-- The stanzas taken from the application queue along a trace
(nil values are not stanzas). -/
def wReceived : List WEvent → List StanzaM
  | [] => []
  | WEvent.recv (some s) :: r => s :: wReceived r
  | _ :: r => wReceived r

/-- Whether a trace contains the Allow command (control value 1). -/
def wAllows (tr : List WEvent) : Bool :=
  tr.any (fun e => match e with
    | WEvent.ctrl c => c == 1
    | _ => false)

/-- Sample stanza used by concrete witnesses. -/
def wSample : StanzaM := { kind := StanzaKind.message, id := "m1", typ := "chat", nested := [] }

/-! ## Inbound driver: `readStream` (layer3.go) -/

/-- One event observed by the `readStream` select loop: a handler
registration arriving on `cl.handlers`, a stanza decoded from `srvIn`,
or any non-stanza value (`stream`, `streamError`, `Features`,
`starttls`, `auth`, or the logged default case), which neither touches
the handler map nor forwards anything to `cliOut`. -/
inductive RInEvent
  | reg (id : String) (f : StanzaM → Bool)
  | stanza (s : StanzaM)
  | nonStanza

/-- Go map lookup on an association list carrying the most recent
binding first. -/
def mapLookup : List (String × (StanzaM → Bool)) → String → Option (StanzaM → Bool)
  | [], _ => none
  | (k, v) :: r, x => if k = x then some v else mapLookup r x

/-- Go `delete(handlers, k)`: every binding of `k` is removed. -/
def mapErase (m : List (String × (StanzaM → Bool))) (k : String) :
    List (String × (StanzaM → Bool)) :=
  m.filter (fun p => p.1 != k)

/-- State of the `readStream` loop: the handler map plus the observable
history (stanzas delivered to `cliOut`, and an invocation log recording
each handler call as the pair of the matched id and the stanza it was
called on). -/
structure RState where
  handlers : List (String × (StanzaM → Bool))
  out : List StanzaM
  fired : List (String × StanzaM)

/-- Initial state of `readStream`: an empty handler map. -/
def rInit : RState := { handlers := [], out := [], fired := [] }

/-- One iteration of the `readStream` select loop.  A registration
installs (or replaces) a binding; a stanza whose id has a handler
deletes the binding, calls the handler and forwards the stanza only if
the handler returned true; any other stanza is forwarded
unconditionally. -/
def readStep (st : RState) : RInEvent → RState
  | RInEvent.reg i f => { st with handlers := (i, f) :: st.handlers }
  | RInEvent.nonStanza => st
  | RInEvent.stanza s =>
    match mapLookup st.handlers s.id with
    | some f =>
      { handlers := mapErase st.handlers s.id,
        out := st.out ++ (if f s then [s] else []),
        fired := st.fired ++ [(s.id, s)] }
    | none => { st with out := st.out ++ [s] }

/-- Run of the `readStream` loop over an event trace. -/
def readRun (st : RState) (tr : List RInEvent) : RState := tr.foldl readStep st

/-- Whether an event registers a handler for id `X`. -/
def evReg (X : String) : RInEvent → Bool
  | RInEvent.reg i _ => i == X
  | _ => false

/-- Whether an event is an inbound stanza whose header id is `X`. -/
def evStanzaWith (X : String) : RInEvent → Bool
  | RInEvent.stanza s => s.id == X
  | _ => false

/-- The handler invocations for id `X` in an invocation log. -/
def firedWith (X : String) (log : List (String × StanzaM)) : List (String × StanzaM) :=
  log.filter (fun p => p.1 == X)

/-- Sample iq stanza used by concrete witnesses. -/
def rSampleIq : StanzaM := { kind := StanzaKind.iq, id := "42", typ := "result", nested := [] }

/-- Sample handler used by concrete witnesses: accept iq results. -/
def rSampleHandler (s : StanzaM) : Bool := s.typ == "result"

/-! ## Filter stack manager: `filterMgr` (filter file of the sources) -/

/-- State of the `filterMgr` loop.  Channels are identified by natural
numbers; `chain` records each started filter as a triple
(filter tag, its input channel, its output channel) in installation
order.  `botFiltIn` is initialised to `output` and `topFiltOut` to
`input`, exactly as in the source; `sent` logs every stanza the manager
itself forwards, paired with the channel it was written to. -/
structure FMState where
  input : Nat
  output : Nat
  botFiltIn : Nat
  topFiltOut : Nat
  fresh : Nat
  chain : List (Nat × Nat × Nat)
  running : Bool
  closedBot : Bool
  sent : List (Nat × StanzaM)
deriving DecidableEq

/-- Initial `filterMgr` state for given input/output channels; `fresh`
numbers the next channel `make(chan Stanza)` would create. -/
def fmInit (inCh outCh fresh : Nat) : FMState :=
  { input := inCh, output := outCh, botFiltIn := outCh, topFiltOut := inCh,
    fresh := fresh, chain := [], running := true, closedBot := false, sent := [] }

/-- Outcomes of one iteration of the `filterMgr` select loop, all five
cases of the source: a stanza won on `input` (forwarded to
`botFiltIn`), a stanza received on `topFiltOut` (forwarded to
`output`), a filter arriving on `filterAdd` (the source runs
`go filt(topFiltOut, newTop)` and makes `newTop` the new `topFiltOut`),
and the closing of `topFiltOut` or of `input` (each close breaks the
loop, after which `close(botFiltIn)` runs).  The `input` case stays in
the select forever, so after filters are installed the manager keeps
competing with the bottom filter for the application channel. -/
inductive FMEvent
  | inputStanza (s : StanzaM)
  | topStanza (s : StanzaM)
  | add (tag : Nat)
  | topChanClosed
  | inChanClosed
deriving DecidableEq

/-- One iteration of `filterMgr` (a dead loop ignores events). -/
def fmStep (st : FMState) : FMEvent → FMState
  | FMEvent.inputStanza s =>
    if st.running then { st with sent := st.sent ++ [(st.botFiltIn, s)] } else st
  | FMEvent.topStanza s =>
    if st.running then { st with sent := st.sent ++ [(st.output, s)] } else st
  | FMEvent.add tag =>
    if st.running then
      { st with
        chain := st.chain ++ [(tag, st.topFiltOut, st.fresh)],
        topFiltOut := st.fresh,
        fresh := st.fresh + 1 }
    else st
  | FMEvent.topChanClosed =>
    if st.running then { st with running := false, closedBot := true } else st
  | FMEvent.inChanClosed =>
    if st.running then { st with running := false, closedBot := true } else st

/-- Run of `filterMgr` over loop iterations. -/
def fmRun (st : FMState) (tr : List FMEvent) : FMState := tr.foldl fmStep st

/-- A scheduler decision for one hop of a stanza sitting on a channel:
either the manager wins the receive (legal on `input` and on
`topFiltOut`; either way the manager then writes the stanza towards the
codec, since `botFiltIn == output`), or the installed filter with the
given tag wins (legal when that channel is the filter's input; the
stanza then continues on the filter's output channel). -/
inductive RouteChoice
  | mgr
  | filt (tag : Nat)
deriving DecidableEq

/-- The installed filter with the given tag, if any. -/
def chainFind (chain : List (Nat × Nat × Nat)) (tag : Nat) : Option (Nat × Nat × Nat) :=
  chain.find? (fun f => f.1 == tag)

/-- Journey of one outbound stanza through configuration `st`, starting
on channel `c`, under a list of scheduler decisions: returns the tags
of the filters the stanza passed through, in order, when the schedule
is legal and ends with the manager delivering the stanza towards the
codec; `none` for schedules the running program cannot realise. -/
def routeRun (st : FMState) : Nat → List RouteChoice → Option (List Nat)
  | _, [] => none
  | c, RouteChoice.mgr :: rest =>
    if st.running = true ∧ (c = st.input ∨ c = st.topFiltOut) then
      (if rest = [] then some [] else none)
    else none
  | c, RouteChoice.filt tag :: rest =>
    match chainFind st.chain tag with
    | none => none
    | some f =>
      if f.2.1 = c then Option.map (fun v => tag :: v) (routeRun st f.2.2 rest)
      else none

/-- The manager state with filters `t1` then `t2` installed on channels
`i` (application side) and `o` (codec side), fresh channels numbered
from `n`: the state `fmRun` reaches after the two `add` events. -/
def fmTwo (i o n t1 t2 : Nat) : FMState :=
  { input := i, output := o, botFiltIn := o, topFiltOut := n + 1,
    fresh := n + 2, chain := [(t1, i, n), (t2, n, n + 1)],
    running := true, closedBot := false, sent := [] }

/-! ## Feature dispatch: `handleFeatures` (layer3.go) -/

/-- A decoded features value: whether starttls was advertised
(`fe.Starttls != nil`), the SASL mechanism list, and whether bind was
advertised (`fe.Bind != nil`). -/
structure FeaturesM where
  starttls : Bool
  mechanisms : List String
  bind : Bool
deriving DecidableEq

/-- An effect performed by a branch of `handleFeatures`: a value sent
to the XML encoder, the start of the SASL exchange, or a handler
registration. -/
inductive L3Effect
  | sendStartTls
  | saslBegin (mechs : List String)
  | regHandler (id : String)
  | sendBindIq (id : String) (resource : Option String)
deriving DecidableEq

/-- Client fields consulted by `handleFeatures` and `bind`. -/
structure ClientSt where
  features : Option FeaturesM
  nextId : String
  jidResource : String
deriving DecidableEq

/-- Modelled from the spec: `chooseSasl` lives in the SASL source file,
which is absent from the sources; per the spec it selects a mechanism
from the advertised list and begins the SASL exchange.  Only the fact
that SASL authentication begins matters to the claims. -/
def chooseSasl (fe : FeaturesM) : List L3Effect := [L3Effect.saslBegin fe.mechanisms]

/-- `bind` (layer3.go): registers a callback for a fresh id via
`HandleStanza`, then sends the bind iq; the resource element is present
exactly when the JID carries a resource. -/
def bindRequest (cl : ClientSt) : List L3Effect :=
  [L3Effect.regHandler cl.nextId,
   L3Effect.sendBindIq cl.nextId (if cl.jidResource = "" then none else some cl.jidResource)]

/-- `handleFeatures` (layer3.go): stores the features value in
`cl.Features`, then tests starttls, the mechanism list and bind in that
order, returning right after the first branch taken. -/
def handleFeatures (cl : ClientSt) (fe : FeaturesM) : ClientSt × List L3Effect :=
  if fe.starttls then ({ cl with features := some fe }, [L3Effect.sendStartTls])
  else if fe.mechanisms ≠ [] then ({ cl with features := some fe }, chooseSasl fe)
  else if fe.bind then ({ cl with features := some fe }, bindRequest cl)
  else ({ cl with features := some fe }, [])

/-- The negotiation actions among a list of effects: the starttls
request, the SASL start and the bind iq; the callback registration is
auxiliary to the bind action. -/
def negActions (effs : List L3Effect) : List L3Effect :=
  effs.filter (fun e => match e with
    | L3Effect.sendStartTls => true
    | L3Effect.saslBegin _ => true
    | L3Effect.sendBindIq _ _ => true
    | L3Effect.regHandler _ => false)

/-- Sample client state used by concrete witnesses. -/
def clSample : ClientSt := { features := none, nextId := "7", jidResource := "" }

/-! ## Inbound byte transport: `recvTransport` (layer1.go, and the
same loop in the layer-1 revision bundled with the example program) -/

/-- One iteration of the `recvTransport` loop: the current socket is
absent (swap in progress: the loop parks and retries), a zero-byte
socket read (with or without a deadline-expiration error), or a read of
`data` bytes of which `nw` were then written to the destination
pipe. -/
inductive L1Event
  | sockGone
  | readZero (timeout : Bool)
  | readData (data : List Nat) (nw : Nat)
deriving DecidableEq

/-- Run of the `recvTransport` loop: the chunks written to the
destination pipe, and whether the loop has exited (running the deferred
`w.Close()`).  `none` marks unrealisable traces: a data read of zero
bytes, a write longer than the read, or iterations after the loop has
exited. -/
def recvRun : List L1Event → Option (List (List Nat) × Bool)
  | [] => some ([], false)
  | L1Event.sockGone :: r => recvRun r
  | L1Event.readZero true :: r => recvRun r
  | L1Event.readZero false :: r =>
    if r = [] then some ([], true) else none
  | L1Event.readData d nw :: r =>
    if d = [] then none
    else if d.length < nw then none
    else if nw < d.length then
      (if r = [] then some ([d.take nw], true) else none)
    else Option.map (fun p => (d :: p.1, p.2)) (recvRun r)

/-! ## Roster extension: `rosterMgr` and its receive filter (roster
part of the sources) -/

/-- Association-list lookup with Go map semantics (first binding
wins; insertion shadows). -/
def alookup {α : Type} : List (String × α) → String → Option α
  | [], _ => none
  | (k, v) :: r, x => if k = x then some v else alookup r x

/-- Go `delete(m, k)`. -/
def aerase {α : Type} (m : List (String × α)) (k : String) : List (String × α) :=
  m.filter (fun p => p.1 != k)

/-- Go map assignment `m[k] = v`. -/
def ainsert {α : Type} (m : List (String × α)) (k : String) (v : α) :
    List (String × α) :=
  (k, v) :: aerase m k

/-- State of `rosterMgr`: the private roster map keyed by the item JID,
the wait-callback map keyed by stanza id (callbacks as numeric tags),
and the log of callbacks invoked. -/
structure RosterSt where
  roster : List (String × RosterItem)
  waits : List (String × Nat)
  firedCbs : List Nat
deriving DecidableEq

/-- Empty initial `rosterMgr` state. -/
def rosterInit : RosterSt := { roster := [], waits := [], firedCbs := [] }

/-- The first `*RosterQuery` among the nested elements, as the range
loop over `iq.Nested` finds it. -/
def findQuery : List NestedElem → Option (List RosterItem)
  | [] => none
  | NestedElem.rosterQuery items :: _ => some items
  | _ :: r => findQuery r

/-- Processing of one stanza received on `upd` by `rosterMgr`: the wait
callback for the stanza id fires and is removed; then the source runs
`iq, ok := stan.(*Iq)` and dereferences `iq` without checking `ok`, so
a non-iq stanza leaves `iq` nil and `iq.Type` panics (`none`); an iq
whose type is not `set`, or without a roster query payload, changes
nothing; an iq-set roster query folds its items into the map. -/
def rosterUpdStep (st : RosterSt) (stan : StanzaM) : Option RosterSt :=
  let st1 : RosterSt :=
    match alookup st.waits stan.id with
    | some cb =>
      { st with waits := aerase st.waits stan.id, firedCbs := st.firedCbs ++ [cb] }
    | none => st
  match stan.kind with
  | StanzaKind.iq =>
    if stan.typ ≠ "set" then some st1
    else
      match findQuery stan.nested with
      | none => some st1
      | some items =>
        some { st1 with
               roster := items.foldl (fun m it => ainsert m it.jid it) st1.roster }
  | _ => none

/-- The roster receive filter (`makeFilters` recv closure): each
inbound stanza is first handed to `rosterMgr` over `rosterUpdate`, then
forwarded unmodified; a panic of `rosterMgr` kills the process
(`none`). -/
def rosterRecvRun (st : RosterSt) : List StanzaM → Option (RosterSt × List StanzaM)
  | [] => some (st, [])
  | s :: r =>
    match rosterUpdStep st s with
    | none => none
    | some st2 => Option.map (fun p => (p.1, s :: p.2)) (rosterRecvRun st2 r)

/-- Sample roster item for concrete evaluations. -/
def rosterAlice : RosterItem :=
  { jid := "alice@example.com", subscription := "both", name := "A" }

/-- An inbound roster push: iq-set carrying one roster item. -/
def rosterPush : StanzaM :=
  { kind := StanzaKind.iq, id := "p1", typ := "set",
    nested := [NestedElem.rosterQuery [rosterAlice]] }

/-- The `rosterMgr` state after processing one `rosterPush`. -/
def rosterAfterPush : RosterSt :=
  { roster := [("alice@example.com", rosterAlice)], waits := [], firedCbs := [] }

/-! ## Status manager: `statmgr` (status part of the sources) -/

/-- The loop body of `sendToListener`: each iteration selects between
draining the single-slot listener channel (ready exactly when the slot
is occupied) and delivering the new status (ready exactly when the slot
is free), and returns after delivering.  The fuel counts iterations;
`none` means the loop has not returned within the fuel. -/
def sendToListenerLoop : Nat → Option Status → Status → Option (Option Status)
  | 0, _, _ => none
  | _ + 1, none, stat => some (some stat)
  | n + 1, some _, stat => sendToListenerLoop n none stat

/-- Total wrapper over `sendToListenerLoop`: by `statmgr_single_slot`
the loop always returns within two iterations. -/
def sendToListener (slot : Option Status) (stat : Status) : Option Status :=
  (sendToListenerLoop 2 slot stat).getD none

/-- Events of the `statmgr.manager` select loop: a status published on
`newStatus`, a fresh listener arriving on `newlistener`, and the
closing of `newlistener` (`statmgr.close()`), which makes the manager
return and run its deferred actions. -/
inductive SMEvent
  | set (s : Status)
  | newListener
  | closeMgr
deriving DecidableEq

/-- State of the `manager` goroutine: the current status, the slot
content of each registered listener queue in registration order,
whether the deferred `close(l)` of every listener has run, the statuses
delivered to the client channel supplied at construction, whether that
channel has been closed, and whether the manager has returned. -/
structure SMState where
  stat : Status
  listeners : List (Option Status)
  listenersClosed : Bool
  clientMsgs : List Status
  clientClosed : Bool
  finished : Bool
deriving DecidableEq

/-- Initial manager state: status Unconnected, no listeners. -/
def smInit : SMState :=
  { stat := StatusUnconnected, listeners := [], listenersClosed := false,
    clientMsgs := [], clientClosed := false, finished := false }

/-- One iteration of `manager`.  `clientPresent` models a non-nil
client channel; `clientReady` models whether the non-blocking deferred
send of the final Shutdown finds the client ready to receive (otherwise
the `default` case drops it).  A new status is pushed into every
listener slot and forwarded to the client unless it is Shutdown; a new
listener is cold-replayed with the current status; the close event runs
the deferred listener closes and the deferred client notification. -/
def smStep (clientPresent clientReady : Bool) (st : SMState) : SMEvent → Option SMState
  | SMEvent.set s =>
    if st.finished then none
    else some { st with
      stat := s,
      listeners := st.listeners.map (fun slot => sendToListener slot s),
      clientMsgs := st.clientMsgs ++
        (if clientPresent ∧ s ≠ StatusShutdown then [s] else []) }
  | SMEvent.newListener =>
    if st.finished then none
    else some { st with listeners := st.listeners ++ [sendToListener none st.stat] }
  | SMEvent.closeMgr =>
    if st.finished then none
    else some { st with
      finished := true,
      listenersClosed := true,
      clientMsgs := st.clientMsgs ++
        (if clientPresent ∧ clientReady then [StatusShutdown] else []),
      clientClosed := clientPresent }

/-- Run of `manager` over an event trace. -/
def smRun (cp cr : Bool) (st : SMState) : List SMEvent → Option SMState
  | [] => some st
  | e :: r =>
    match smStep cp cr st e with
    | none => none
    | some st2 => smRun cp cr st2 r

/-- Modelled from the spec: in the canonical revision the inbound
stream driver (`recvStream`, absent from the sources; only its callers
appear in xmpp.go) runs `defer cl.statmgr.close()`, so once Shutdown is
published and the pipeline tears down, the manager's `newlistener`
channel is closed and the manager returns.  `shutdownTeardown` appends
that Shutdown-then-close teardown to a trace. -/
def shutdownTeardown (tr : List SMEvent) : List SMEvent :=
  tr ++ [SMEvent.set StatusShutdown, SMEvent.closeMgr]

/-- The manager state reached from `stM` by publishing Shutdown and
then closing: used to state `statmgr_shutdown`. -/
def smShutdownState (cp cr : Bool) (stM : SMState) : SMState :=
  { stat := StatusShutdown,
    listeners := stM.listeners.map (fun slot => sendToListener slot StatusShutdown),
    listenersClosed := true,
    clientMsgs := stM.clientMsgs ++ (if cp ∧ cr then [StatusShutdown] else []),
    clientClosed := cp,
    finished := true }

/-- Final manager state of the concrete shutdown witness. -/
def smWitnessFinal : SMState :=
  { stat := StatusShutdown,
    listeners := [some StatusShutdown],
    listenersClosed := true,
    clientMsgs := [StatusConnected, StatusShutdown],
    clientClosed := true,
    finished := true }

/-- Intermediate manager state of the single-slot witness. -/
def smWitnessMid : SMState :=
  { stat := StatusConnected,
    listeners := [],
    listenersClosed := false,
    clientMsgs := [],
    clientClosed := false,
    finished := false }

/-- The loop of `awaitStatus` over the statuses observed on its
listener queue: success on seeing the awaited status or any greater
status other than Shutdown; error on seeing Shutdown first or on the
queue closing (end of list). -/
def awaitStatusLoop (waitFor : Status) : List Status → Bool
  | [] => false
  | c :: rest =>
    if c = waitFor then true
    else if c = StatusShutdown then false
    else if c > waitFor then true
    else awaitStatusLoop waitFor rest

/-! ## Extension registration in the constructor: `NewClient` (xmpp.go) -/

/-- A qualified XML name (namespace, local name), the key type of an
extension's `StanzaTypes` map. -/
abbrev XmlName := String × String

/-- The qualified names registered by the roster extension
(`newRosterExt`). -/
def rosterExtNames : List XmlName := [("jabber:iq:roster", "query")]

/-- Modelled from the spec: `bindExt` is defined in the bind source
file, which is absent from the sources (only its use in `NewClient`
appears); per the spec the bind extension registers the bind namespace
qualified name. -/
def bindExtNames : List XmlName := [("urn:ietf:params:xml:ns:xmpp-bind", "bind")]

/-- The inner loop of the duplicate check in `NewClient`: each key of
one extension's map is added to the accumulated registry unless already
present, in which case the offending key is reported. -/
def mergeList (acc : List XmlName) : List XmlName → Except XmlName (List XmlName)
  | [] => Except.ok acc
  | k :: r => if k ∈ acc then Except.error k else mergeList (acc ++ [k]) r

/-- The outer loop of the duplicate check over all extensions. -/
def mergeExts (acc : List XmlName) : List (List XmlName) → Except XmlName (List XmlName)
  | [] => Except.ok acc
  | e :: r =>
    match mergeList acc e with
    | Except.error k => Except.error k
    | Except.ok acc2 => mergeExts acc2 r

/-- Externally visible steps the constructor performs after the
duplicate check succeeds. -/
inductive SetupEffect
  | lookupSrv
  | dialTcp
  | sendStreamOpen
deriving DecidableEq

/-- The setup phase of `NewClient` (xmpp.go): the mandatory roster and
bind extensions are appended to the caller's list, the `StanzaTypes`
maps are merged with the duplicate check, and only on success does the
constructor proceed to the DNS SRV lookup, the TCP dial and the
stream-open handshake; on a duplicate it returns the error with no
client and no network activity. -/
def newClientSetup (userExts : List (List XmlName)) :
    Except XmlName (List XmlName) × List SetupEffect :=
  match mergeExts [] (userExts ++ [rosterExtNames, bindExtNames]) with
  | Except.error k => (Except.error k, [])
  | Except.ok m =>
    (Except.ok m, [SetupEffect.lookupSrv, SetupEffect.dialTcp, SetupEffect.sendStreamOpen])

end Xmpp2

namespace Xmpp2

/-! ## Lemmas about `writeRun` -/

theorem writeRun_cut (p : List WEvent) :
    ∀ (q : List WEvent) (e : Bool) (res : WResult),
      writeRun e (p ++ q) = some res → ∃ r0, writeRun e p = some r0 := by
  induction p with
  | nil =>
    intro q e res _
    exact ⟨{ sent := [], closed := false }, rfl⟩
  | cons ev p ih =>
    intro q e res h
    cases ev with
    | ctrl c =>
      simp only [List.cons_append, writeRun] at h ⊢
      by_cases h0 : c = 0
      · simp only [h0, if_true] at h ⊢
        exact ih q false res h
      · simp only [h0, if_false] at h ⊢
        by_cases h1 : c = 1
        · simp only [h1, if_true] at h ⊢
          exact ih q true res h
        · simp only [h1, if_false] at h ⊢
          by_cases h2 : c = -1
          · simp only [h2, if_true] at h ⊢
            by_cases h3 : p ++ q = []
            · rcases List.append_eq_nil.mp h3 with ⟨hp, _⟩
              simp [hp]
            · simp [h3] at h
          · simp only [h2, if_false] at h ⊢
            exact ih q e res h
    | recv x =>
      simp only [List.cons_append, writeRun] at h ⊢
      by_cases he : e = true
      · subst he
        simp only [if_true] at h ⊢
        cases x with
        | none => exact ih q true res h
        | some s =>
          rcases Option.map_eq_some'.mp h with ⟨w, hw, _⟩
          rcases ih q true w hw with ⟨r0, hr0⟩
          exact ⟨_, by rw [hr0]; rfl⟩
      · have he2 : e = false := by
          cases e
          · rfl
          · exact absurd rfl he
        subst he2
        simp at h
    | closedIn =>
      simp only [List.cons_append, writeRun] at h ⊢
      by_cases he : e = true
      · subst he
        simp only [if_true] at h ⊢
        by_cases h3 : p ++ q = []
        · rcases List.append_eq_nil.mp h3 with ⟨hp, _⟩
          simp [hp]
        · simp [h3] at h
      · have he2 : e = false := by
          cases e
          · rfl
          · exact absurd rfl he
        subst he2
        simp at h

theorem writeRun_sent (tr : List WEvent) :
    ∀ (e : Bool) (res : WResult),
      writeRun e tr = some res → res.sent = wReceived tr := by
  induction tr with
  | nil =>
    intro e res h
    simp only [writeRun] at h
    cases h
    rfl
  | cons ev tr ih =>
    intro e res h
    cases ev with
    | ctrl c =>
      simp only [writeRun] at h
      have hrec : wReceived (WEvent.ctrl c :: tr) = wReceived tr := rfl
      rw [hrec]
      by_cases h0 : c = 0
      · simp only [h0, if_true] at h
        exact ih false res h
      · simp only [h0, if_false] at h
        by_cases h1 : c = 1
        · simp only [h1, if_true] at h
          exact ih true res h
        · simp only [h1, if_false] at h
          by_cases h2 : c = -1
          · simp only [h2, if_true] at h
            by_cases h3 : tr = []
            · subst h3
              simp at h
              cases h
              rfl
            · simp [h3] at h
          · simp only [h2, if_false] at h
            exact ih e res h
    | recv x =>
      simp only [writeRun] at h
      by_cases he : e = true
      · subst he
        simp only [if_true] at h
        cases x with
        | none =>
          have hrec : wReceived (WEvent.recv none :: tr) = wReceived tr := rfl
          rw [hrec]
          exact ih true res h
        | some s =>
          rcases Option.map_eq_some'.mp h with ⟨w, hw, hres⟩
          have : res.sent = s :: w.sent := by rw [← hres]
          rw [this, ih true w hw]
          rfl
      · have he2 : e = false := by
          cases e
          · rfl
          · exact absurd rfl he
        subst he2
        simp at h
    | closedIn =>
      simp only [writeRun] at h
      by_cases he : e = true
      · subst he
        simp only [if_true] at h
        by_cases h3 : tr = []
        · subst h3
          simp at h
          cases h
          rfl
        · simp [h3] at h
      · have he2 : e = false := by
          cases e
          · rfl
          · exact absurd rfl he
        subst he2
        simp at h

theorem writeRun_noAllow (p : List WEvent) :
    ∀ (r0 : WResult), writeRun false p = some r0 → wAllows p = false →
      r0.sent = [] := by
  induction p with
  | nil =>
    intro r0 h _
    simp only [writeRun] at h
    cases h
    rfl
  | cons ev p ih =>
    intro r0 h ha
    cases ev with
    | ctrl c =>
      simp only [writeRun] at h
      have ha2 : (c == 1) = false ∧ wAllows p = false := by
        simpa [wAllows, List.any_cons] using ha
      have hc1 : ¬ c = 1 := by
        intro hc
        rw [hc] at ha2
        exact absurd ha2.1 (by simp)
      by_cases h0 : c = 0
      · simp only [h0, if_true] at h
        exact ih r0 h ha2.2
      · simp only [h0, if_false, hc1] at h
        by_cases h2 : c = -1
        · simp only [h2, if_true] at h
          by_cases h3 : p = []
          · simp [h3] at h
            cases h
            rfl
          · simp [h3] at h
        · simp only [h2, if_false] at h
          exact ih r0 h ha2.2
    | recv x =>
      simp only [writeRun] at h
      simp at h
    | closedIn =>
      simp only [writeRun] at h
      simp at h

theorem writeRun_abort (p : List WEvent) :
    ∀ (e : Bool) (res : WResult),
      writeRun e (p ++ [WEvent.ctrl (-1)]) = some res → res.closed = true := by
  induction p with
  | nil =>
    intro e res h
    simp only [List.nil_append, writeRun] at h
    norm_num at h
    cases h
    rfl
  | cons ev p ih =>
    intro e res h
    cases ev with
    | ctrl c =>
      simp only [List.cons_append, writeRun] at h
      by_cases h0 : c = 0
      · simp only [h0, if_true] at h
        exact ih false res h
      · simp only [h0, if_false] at h
        by_cases h1 : c = 1
        · simp only [h1, if_true] at h
          exact ih true res h
        · simp only [h1, if_false] at h
          by_cases h2 : c = -1
          · simp only [h2, if_true] at h
            have h3 : ¬ (p ++ [WEvent.ctrl (-1)] = []) := by simp
            simp [h3] at h
          · simp only [h2, if_false] at h
            exact ih e res h
    | recv x =>
      simp only [List.cons_append, writeRun] at h
      by_cases he : e = true
      · subst he
        simp only [if_true] at h
        cases x with
        | none => exact ih true res h
        | some s =>
          rcases Option.map_eq_some'.mp h with ⟨w, hw, hres⟩
          have hcl := ih true w hw
          rw [← hres]
          exact hcl
      · have he2 : e = false := by
          cases e
          · rfl
          · exact absurd rfl he
        subst he2
        simp at h
    | closedIn =>
      simp only [List.cons_append, writeRun] at h
      by_cases he : e = true
      · subst he
        simp only [if_true] at h
        have h3 : ¬ (p ++ [WEvent.ctrl (-1)] = []) := by simp
        simp [h3] at h
      · have he2 : e = false := by
          cases e
          · rfl
          · exact absurd rfl he
        subst he2
        simp at h

/-- Claim C1: in every realisable execution of the outbound gated
forwarder `writeStream` (layer3.go), (i) along any portion of the trace
in which the Allow command (control value 1) has not yet been received,
nothing has been forwarded to the XML codec — in particular no stanza
taken from the application queue is passed on before Allow; (ii) the
values forwarded to the codec are exactly the stanzas taken from the
application queue, in FIFO order (nil values are dropped and are not
stanzas); (iii) if the trace ends with the Abort command (control value
-1) the forwarder has exited, closing its output via the deferred
`close(srvOut)`. -/
theorem writeStream_gate (tr : List WEvent) (res : WResult)
    (h : writeRun false tr = some res) :
    (∀ p q, tr = p ++ q → wAllows p = false →
      ∃ r0, writeRun false p = some r0 ∧ r0.sent = []) ∧
    res.sent = wReceived tr ∧
    (∀ p, tr = p ++ [WEvent.ctrl (-1)] → res.closed = true) := by
  refine ⟨?_, writeRun_sent tr false res h, ?_⟩
  · intro p q hpq ha
    rw [hpq] at h
    rcases writeRun_cut p q false res h with ⟨r0, hr0⟩
    exact ⟨r0, hr0, writeRun_noAllow p r0 hr0 ha⟩
  · intro p hp
    rw [hp] at h
    exact writeRun_abort p false res h

/-- Concrete instantiation of `writeStream_gate`: a run that is denied,
allowed, forwards two stanzas and one nil, and aborts. -/
theorem writeStream_gate_witness :
    ({ sent := [wSample, wSample], closed := true } : WResult).sent =
      wReceived
        [WEvent.ctrl 0, WEvent.ctrl 1, WEvent.recv (some wSample),
          WEvent.recv none, WEvent.recv (some wSample), WEvent.ctrl (-1)] ∧
    ({ sent := [wSample, wSample], closed := true } : WResult).closed = true := by
  have h := writeStream_gate
    [WEvent.ctrl 0, WEvent.ctrl 1, WEvent.recv (some wSample),
      WEvent.recv none, WEvent.recv (some wSample), WEvent.ctrl (-1)]
    { sent := [wSample, wSample], closed := true } (by decide)
  exact ⟨h.2.1, h.2.2
    [WEvent.ctrl 0, WEvent.ctrl 1, WEvent.recv (some wSample),
      WEvent.recv none, WEvent.recv (some wSample)] rfl⟩

/-! ## Lemmas about `readRun` -/

theorem readRun_cons (st : RState) (e : RInEvent) (tr : List RInEvent) :
    readRun st (e :: tr) = readRun (readStep st e) tr := rfl

theorem readRun_append (st : RState) (a b : List RInEvent) :
    readRun st (a ++ b) = readRun (readRun st a) b :=
  List.foldl_append readStep st a b

theorem mapLookup_erase (m : List (String × (StanzaM → Bool))) (k : String) :
    mapLookup (mapErase m k) k = none := by
  induction m with
  | nil => rfl
  | cons p r ih =>
    by_cases h : p.1 = k
    · simpa [mapErase, h] using ih
    · simpa [mapErase, mapLookup, h, List.filter_cons] using ih

theorem mapLookup_erase_ne (m : List (String × (StanzaM → Bool))) (k x : String)
    (h : x ≠ k) : mapLookup (mapErase m k) x = mapLookup m x := by
  induction m with
  | nil => rfl
  | cons p r ih =>
    obtain ⟨k1, v1⟩ := p
    have hkx : ¬ k = x := fun hk => h (Eq.symm hk)
    by_cases hp : k1 = k
    · have hpx : ¬ k1 = x := by
        rw [hp]
        exact hkx
      simp [mapErase, List.filter_cons, hp, mapLookup, hpx, hkx] at ih ⊢
      exact ih
    · by_cases hx : k1 = x
      · simp [mapErase, List.filter_cons, hp, mapLookup, hx, h]
      · simp [mapErase, List.filter_cons, hp, mapLookup, hx, h] at ih ⊢
        exact ih

theorem firedWith_append (X : String) (l1 l2 : List (String × StanzaM)) :
    firedWith X (l1 ++ l2) = firedWith X l1 ++ firedWith X l2 :=
  List.filter_append l1 l2

theorem readRun_absent (X : String) (tr : List RInEvent) :
    ∀ st : RState, mapLookup st.handlers X = none →
      tr.all (fun e => !(evReg X e)) = true →
      mapLookup (readRun st tr).handlers X = none ∧
      firedWith X (readRun st tr).fired = firedWith X st.fired := by
  induction tr with
  | nil =>
    intro st hl _
    exact ⟨hl, rfl⟩
  | cons e tr ih =>
    intro st hl hall
    rw [List.all_cons, Bool.and_eq_true] at hall
    rw [readRun_cons]
    cases e with
    | reg i f =>
      have hne : i ≠ X := by
        intro hiX
        rw [evReg, hiX] at hall
        simp at hall
      have hl2 : mapLookup ((i, f) :: st.handlers) X = some f |> fun _ => True := trivial
      have hstep : mapLookup (readStep st (RInEvent.reg i f)).handlers X = none := by
        simp only [readStep, mapLookup, if_neg hne]
        exact hl
      exact ih _ hstep hall.2
    | nonStanza => exact ih st hl hall.2
    | stanza s =>
      by_cases hid : s.id = X
      · have hnl : mapLookup st.handlers s.id = none := by rw [hid]; exact hl
        have hstep : readStep st (RInEvent.stanza s) = { st with out := st.out ++ [s] } := by
          simp [readStep, hnl]
        rw [hstep]
        exact ih _ hl hall.2
      · cases hcase : mapLookup st.handlers s.id with
        | none =>
          have hstep : readStep st (RInEvent.stanza s) = { st with out := st.out ++ [s] } := by
            simp [readStep, hcase]
          rw [hstep]
          exact ih _ hl hall.2
        | some g =>
          have hstep : readStep st (RInEvent.stanza s) =
              { handlers := mapErase st.handlers s.id,
                out := st.out ++ (if g s then [s] else []),
                fired := st.fired ++ [(s.id, s)] } := by
            simp [readStep, hcase]
          rw [hstep]
          have hl2 : mapLookup (mapErase st.handlers s.id) X = none := by
            rw [mapLookup_erase_ne st.handlers s.id X (fun hx => hid hx.symm)]
            exact hl
          rcases ih { handlers := mapErase st.handlers s.id,
                      out := st.out ++ (if g s then [s] else []),
                      fired := st.fired ++ [(s.id, s)] } hl2 hall.2 with ⟨ha, hb⟩
          refine ⟨ha, ?_⟩
          rw [hb]
          show firedWith X (st.fired ++ [(s.id, s)]) = firedWith X st.fired
          rw [firedWith_append]
          have hnil : firedWith X [(s.id, s)] = [] := by
            simp [firedWith, List.filter_cons, hid]
          rw [hnil, List.append_nil]

theorem readRun_pending (X : String) (f : StanzaM → Bool) (tr : List RInEvent) :
    ∀ st : RState, mapLookup st.handlers X = some f →
      tr.all (fun e => !(evReg X e) && !(evStanzaWith X e)) = true →
      mapLookup (readRun st tr).handlers X = some f ∧
      firedWith X (readRun st tr).fired = firedWith X st.fired := by
  induction tr with
  | nil =>
    intro st hl _
    exact ⟨hl, rfl⟩
  | cons e tr ih =>
    intro st hl hall
    rw [List.all_cons, Bool.and_eq_true] at hall
    rw [readRun_cons]
    cases e with
    | reg i g =>
      have hne : i ≠ X := by
        intro hiX
        rw [evReg, hiX] at hall
        simp at hall
      have hstep : mapLookup (readStep st (RInEvent.reg i g)).handlers X = some f := by
        simp only [readStep, mapLookup, if_neg hne]
        exact hl
      exact ih _ hstep hall.2
    | nonStanza => exact ih st hl hall.2
    | stanza s =>
      have hid : s.id ≠ X := by
        intro hiX
        rw [evStanzaWith, hiX] at hall
        simp at hall
      cases hcase : mapLookup st.handlers s.id with
      | none =>
        have hstep : readStep st (RInEvent.stanza s) = { st with out := st.out ++ [s] } := by
          simp [readStep, hcase]
        rw [hstep]
        exact ih _ hl hall.2
      | some g =>
        have hstep : readStep st (RInEvent.stanza s) =
            { handlers := mapErase st.handlers s.id,
              out := st.out ++ (if g s then [s] else []),
              fired := st.fired ++ [(s.id, s)] } := by
          simp [readStep, hcase]
        rw [hstep]
        have hl2 : mapLookup (mapErase st.handlers s.id) X = some f := by
          rw [mapLookup_erase_ne st.handlers s.id X (fun hx => hid hx.symm)]
          exact hl
        rcases ih { handlers := mapErase st.handlers s.id,
                    out := st.out ++ (if g s then [s] else []),
                    fired := st.fired ++ [(s.id, s)] } hl2 hall.2 with ⟨ha, hb⟩
        refine ⟨ha, ?_⟩
        rw [hb]
        show firedWith X (st.fired ++ [(s.id, s)]) = firedWith X st.fired
        rw [firedWith_append]
        have hnil : firedWith X [(s.id, s)] = [] := by
          simp [firedWith, List.filter_cons, hid]
        rw [hnil, List.append_nil]

theorem readStep_fire (st : RState) (X : String) (f : StanzaM → Bool) (s : StanzaM)
    (hl : mapLookup st.handlers X = some f) (hs : s.id = X) :
    readStep st (RInEvent.stanza s) =
      { handlers := mapErase st.handlers X,
        out := st.out ++ (if f s then [s] else []),
        fired := st.fired ++ [(X, s)] } := by
  have hl2 : mapLookup st.handlers s.id = some f := by rw [hs]; exact hl
  simp [readStep, hl2, hs, hl]

theorem readStep_forward (st : RState) (t : StanzaM)
    (hl : mapLookup st.handlers t.id = none) :
    readStep st (RInEvent.stanza t) = { st with out := st.out ++ [t] } := by
  simp [readStep, hl]

theorem readRun_after_fire (X : String) (f : StanzaM → Bool) (s : StanzaM)
    (tr2 : List RInEvent) (st2 : RState)
    (hl : mapLookup st2.handlers X = some f) (hs : s.id = X)
    (h2 : tr2.all (fun e => !(evReg X e)) = true) :
    firedWith X (readRun (readStep st2 (RInEvent.stanza s)) tr2).fired
      = firedWith X st2.fired ++ [(X, s)] ∧
    mapLookup (readRun (readStep st2 (RInEvent.stanza s)) tr2).handlers X = none := by
  rw [readStep_fire st2 X f s hl hs]
  have habs := readRun_absent X tr2
    { handlers := mapErase st2.handlers X,
      out := st2.out ++ (if f s then [s] else []),
      fired := st2.fired ++ [(X, s)] }
    (mapLookup_erase st2.handlers X) h2
  refine ⟨?_, habs.1⟩
  rw [habs.2]
  show firedWith X (st2.fired ++ [(X, s)]) = firedWith X st2.fired ++ [(X, s)]
  rw [firedWith_append]
  have hone : firedWith X [(X, s)] = [(X, s)] := by
    simp [firedWith, List.filter_cons]
  rw [hone]

/-- Claim C2: for a handler `f` registered for id `X` (with no other
registration for `X` anywhere in the trace), the inbound driver
`readStream` (layer3.go): (i) invokes the handler exactly once, namely
on the first inbound stanza `s` whose header id equals `X`; (ii) has
removed the map entry for `X` once that stanza is processed; (iii)
delivers that stanza to the application exactly when the handler
returns true; (iv) forwards every later stanza bearing id `X` to the
application unconditionally. -/
theorem readStream_callback_one_shot
    (X : String) (f : StanzaM → Bool) (tr0 tr1 tr2 : List RInEvent) (s : StanzaM)
    (h0 : tr0.all (fun e => !(evReg X e)) = true)
    (h1 : tr1.all (fun e => !(evReg X e) && !(evStanzaWith X e)) = true)
    (h2 : tr2.all (fun e => !(evReg X e)) = true)
    (hs : s.id = X) :
    firedWith X (readRun rInit
        (tr0 ++ (RInEvent.reg X f :: (tr1 ++ (RInEvent.stanza s :: tr2))))).fired
      = [(X, s)] ∧
    mapLookup (readRun rInit
        (tr0 ++ (RInEvent.reg X f :: (tr1 ++ [RInEvent.stanza s])))).handlers X = none ∧
    (readRun rInit (tr0 ++ (RInEvent.reg X f :: (tr1 ++ [RInEvent.stanza s])))).out
      = (readRun rInit (tr0 ++ (RInEvent.reg X f :: tr1))).out ++ (if f s then [s] else []) ∧
    (∀ u t v, tr2 = u ++ (RInEvent.stanza t :: v) → t.id = X →
      (readRun rInit (tr0 ++ (RInEvent.reg X f ::
          (tr1 ++ (RInEvent.stanza s :: (u ++ [RInEvent.stanza t])))))).out
        = (readRun rInit (tr0 ++ (RInEvent.reg X f ::
            (tr1 ++ (RInEvent.stanza s :: u))))).out ++ [t]) := by
  have hst0 := readRun_absent X tr0 rInit rfl h0
  have hlook1 : mapLookup (readStep (readRun rInit tr0) (RInEvent.reg X f)).handlers X
      = some f := by
    simp [readStep, mapLookup]
  have hst2 := readRun_pending X f tr1
    (readStep (readRun rInit tr0) (RInEvent.reg X f)) hlook1 h1
  have chainBefore : readRun rInit (tr0 ++ (RInEvent.reg X f :: tr1))
      = readRun (readStep (readRun rInit tr0) (RInEvent.reg X f)) tr1 := by
    rw [readRun_append, readRun_cons]
  have chainFire : readRun rInit (tr0 ++ (RInEvent.reg X f :: (tr1 ++ [RInEvent.stanza s])))
      = readStep (readRun (readStep (readRun rInit tr0) (RInEvent.reg X f)) tr1)
          (RInEvent.stanza s) := by
    rw [readRun_append, readRun_cons, readRun_append]
    rfl
  have chainFull : readRun rInit
        (tr0 ++ (RInEvent.reg X f :: (tr1 ++ (RInEvent.stanza s :: tr2))))
      = readRun (readStep (readRun (readStep (readRun rInit tr0) (RInEvent.reg X f)) tr1)
          (RInEvent.stanza s)) tr2 := by
    rw [readRun_append, readRun_cons, readRun_append, readRun_cons]
  have hfire := readRun_after_fire X f s tr2
    (readRun (readStep (readRun rInit tr0) (RInEvent.reg X f)) tr1) hst2.1 hs h2
  refine ⟨?_, ?_, ?_, ?_⟩
  · rw [chainFull, hfire.1, hst2.2]
    have hfin : firedWith X (readStep (readRun rInit tr0) (RInEvent.reg X f)).fired
        = firedWith X (readRun rInit tr0).fired := rfl
    rw [hfin, hst0.2]
    rfl
  · rw [chainFire]
    rw [readStep_fire _ X f s hst2.1 hs]
    exact mapLookup_erase _ X
  · rw [chainFire, chainBefore]
    rw [readStep_fire _ X f s hst2.1 hs]
  · intro u t v htr2 htid
    have hu : u.all (fun e => !(evReg X e)) = true := by
      rw [htr2, List.all_append, Bool.and_eq_true] at h2
      exact h2.1
    have hfireu := readRun_after_fire X f s u
      (readRun (readStep (readRun rInit tr0) (RInEvent.reg X f)) tr1) hst2.1 hs hu
    have chain4L : readRun rInit (tr0 ++ (RInEvent.reg X f ::
          (tr1 ++ (RInEvent.stanza s :: (u ++ [RInEvent.stanza t])))))
        = readStep (readRun (readStep
            (readRun (readStep (readRun rInit tr0) (RInEvent.reg X f)) tr1)
            (RInEvent.stanza s)) u) (RInEvent.stanza t) := by
      rw [readRun_append, readRun_cons, readRun_append, readRun_cons, readRun_append]
      rfl
    have chain4R : readRun rInit (tr0 ++ (RInEvent.reg X f ::
          (tr1 ++ (RInEvent.stanza s :: u))))
        = readRun (readStep
            (readRun (readStep (readRun rInit tr0) (RInEvent.reg X f)) tr1)
            (RInEvent.stanza s)) u := by
      rw [readRun_append, readRun_cons, readRun_append, readRun_cons]
    rw [chain4L, chain4R]
    have hlt : mapLookup (readRun (readStep
        (readRun (readStep (readRun rInit tr0) (RInEvent.reg X f)) tr1)
        (RInEvent.stanza s)) u).handlers t.id = none := by
      rw [htid]
      exact hfireu.2
    rw [readStep_forward _ t hlt]

/-- Concrete instantiation of `readStream_callback_one_shot`: handler
for id 42, one unrelated stanza before the match, a second id-42 stanza
after it. -/
theorem readStream_callback_one_shot_witness :
    firedWith "42" (readRun rInit
        ([RInEvent.nonStanza] ++ (RInEvent.reg "42" rSampleHandler ::
          ([RInEvent.stanza wSample] ++ (RInEvent.stanza rSampleIq ::
            [RInEvent.stanza rSampleIq]))))).fired = [("42", rSampleIq)] ∧
    mapLookup (readRun rInit
        ([RInEvent.nonStanza] ++ (RInEvent.reg "42" rSampleHandler ::
          ([RInEvent.stanza wSample] ++ [RInEvent.stanza rSampleIq])))).handlers "42"
      = none := by
  have h := readStream_callback_one_shot "42" rSampleHandler
    [RInEvent.nonStanza] [RInEvent.stanza wSample] [RInEvent.stanza rSampleIq]
    rSampleIq (by decide) (by decide) (by decide) (by decide)
  exact ⟨h.1, h.2.1⟩

/-! ## Theorems about `filterMgr` -/

theorem routeTwo_from_top (i o n t1 t2 : Nat) (hn1i : n + 1 ≠ i) :
    ∀ (rest : List RouteChoice) (visited : List Nat),
      routeRun (fmTwo i o n t1 t2) (n + 1) rest = some visited → visited = [] := by
  intro rest visited h
  cases rest with
  | nil => simp [routeRun] at h
  | cons ch r =>
    cases ch with
    | mgr =>
      simp only [routeRun, fmTwo] at h
      by_cases hr : r = []
      · simp [hr] at h
        exact h
      · simp [hr] at h
    | filt t =>
      cases hcf : chainFind (fmTwo i o n t1 t2).chain t with
      | none => simp [routeRun, hcf] at h
      | some f =>
        have hmem := List.mem_of_find?_eq_some hcf
        have hf : f = (t1, i, n) ∨ f = (t2, n, n + 1) := by
          simpa [fmTwo] using hmem
        rcases hf with hf | hf
        · subst hf
          have hne : ¬ (i = n + 1) := fun he => hn1i he.symm
          simp [routeRun, hcf, hne] at h
        · subst hf
          have hne : ¬ (n = n + 1) := by omega
          simp [routeRun, hcf, hne] at h

theorem routeTwo_from_mid (i o n t1 t2 : Nat) (hni : n ≠ i) (hn1i : n + 1 ≠ i) :
    ∀ (rest : List RouteChoice) (visited : List Nat),
      routeRun (fmTwo i o n t1 t2) n rest = some visited → visited = [t2] := by
  intro rest visited h
  cases rest with
  | nil => simp [routeRun] at h
  | cons ch r =>
    cases ch with
    | mgr =>
      simp only [routeRun, fmTwo] at h
      have ha : ¬ (n = i) := hni
      have hb : ¬ (n = n + 1) := by omega
      simp [ha, hb] at h
    | filt t =>
      cases hcf : chainFind (fmTwo i o n t1 t2).chain t with
      | none => simp [routeRun, hcf] at h
      | some f =>
        have hpred := List.find?_some hcf
        have hmem := List.mem_of_find?_eq_some hcf
        have hf : f = (t1, i, n) ∨ f = (t2, n, n + 1) := by
          simpa [fmTwo] using hmem
        rcases hf with hf | hf
        · subst hf
          have hne : ¬ (i = n) := fun he => hni he.symm
          simp [routeRun, hcf, hne] at h
        · subst hf
          have ht : t2 = t := by simpa using hpred
          simp only [routeRun, hcf] at h
          rw [if_pos trivial] at h
          rcases Option.map_eq_some'.mp h with ⟨v, hv, hvis⟩
          have hv0 : v = [] := routeTwo_from_top i o n t1 t2 hn1i r v hv
          have hvt : visited = [t] := by
            rw [← hvis, hv0]
          rw [hvt, ht]

theorem routeTwo_from_input (i o n t1 t2 : Nat) (hni : n ≠ i) (hn1i : n + 1 ≠ i) :
    ∀ (rest : List RouteChoice) (visited : List Nat),
      routeRun (fmTwo i o n t1 t2) i rest = some visited →
      visited = [] ∨ visited = [t1, t2] := by
  intro rest visited h
  cases rest with
  | nil => simp [routeRun] at h
  | cons ch r =>
    cases ch with
    | mgr =>
      simp only [routeRun, fmTwo] at h
      by_cases hr : r = []
      · simp [hr] at h
        exact Or.inl h
      · simp [hr] at h
    | filt t =>
      cases hcf : chainFind (fmTwo i o n t1 t2).chain t with
      | none => simp [routeRun, hcf] at h
      | some f =>
        have hpred := List.find?_some hcf
        have hmem := List.mem_of_find?_eq_some hcf
        have hf : f = (t1, i, n) ∨ f = (t2, n, n + 1) := by
          simpa [fmTwo] using hmem
        rcases hf with hf | hf
        · subst hf
          have ht : t1 = t := by simpa using hpred
          simp only [routeRun, hcf] at h
          rw [if_pos trivial] at h
          rcases Option.map_eq_some'.mp h with ⟨v, hv, hvis⟩
          have hv2 : v = [t2] := routeTwo_from_mid i o n t1 t2 hni hn1i r v hv
          refine Or.inr ?_
          rw [← hvis, hv2, ← ht]
        · subst hf
          have hne : ¬ (n = i) := hni
          simp [routeRun, hcf, hne] at h

/-- Claim C3 counterexample: with filters F1 (tag 10) then F2 (tag 20)
installed on the send manager (application channel 0, codec channel 1),
the manager — whose select still receives on `input` and forwards to
`botFiltIn == output` — can win the race for the application channel
and deliver a stanza to the codec through no filter at all; the
schedule that does traverse the filters passes F1 first and F2 second;
and the F2-before-F1 route the claim asserts is not realisable, since
F2 reads F1's output channel, not the application channel. -/
theorem filterMgr_order_counterexample :
    fmRun (fmInit 0 1 2) [FMEvent.add 10, FMEvent.add 20] = fmTwo 0 1 2 10 20 ∧
    routeRun (fmTwo 0 1 2 10 20) 0 [RouteChoice.mgr] = some [] ∧
    routeRun (fmTwo 0 1 2 10 20) 0
      [RouteChoice.filt 10, RouteChoice.filt 20, RouteChoice.mgr] = some [10, 20] ∧
    ¬ routeRun (fmTwo 0 1 2 10 20) 0
      [RouteChoice.filt 20, RouteChoice.filt 10, RouteChoice.mgr] = some [20, 10] := by
  decide

/-- Claim C3 (amended): installing filters F1 then F2 via the send-side
filter manager wires F1 to read the application channel and F2 to read
F1's output, with the manager forwarding F2's output to the codec side;
each outbound stanza accepted from the application is then either
forwarded by the manager directly to the codec, bypassing both filters
(the manager's select keeps the `input` case, racing the bottom
filter), or carried through F1, then through F2, then to the codec —
those are the only realisable routes; and when F2 closes its output —
the manager's `topFiltOut` — the manager breaks its loop and runs
`close(botFiltIn)`, whose channel is the codec-side output. -/
theorem filterMgr_chain (i o n t1 t2 : Nat) (h12 : t1 ≠ t2) (hni : n ≠ i)
    (hn1i : n + 1 ≠ i) :
    fmRun (fmInit i o n) [FMEvent.add t1, FMEvent.add t2] = fmTwo i o n t1 t2 ∧
    (fmTwo i o n t1 t2).chain = [(t1, i, n), (t2, n, n + 1)] ∧
    (fmTwo i o n t1 t2).topFiltOut = n + 1 ∧
    (fmTwo i o n t1 t2).botFiltIn = o ∧
    routeRun (fmTwo i o n t1 t2) i [RouteChoice.mgr] = some [] ∧
    routeRun (fmTwo i o n t1 t2) i
      [RouteChoice.filt t1, RouteChoice.filt t2, RouteChoice.mgr] = some [t1, t2] ∧
    (∀ (choices : List RouteChoice) (visited : List Nat),
      routeRun (fmTwo i o n t1 t2) i choices = some visited →
      visited = [] ∨ visited = [t1, t2]) ∧
    (fmStep (fmTwo i o n t1 t2) FMEvent.topChanClosed).closedBot = true := by
  refine ⟨?_, rfl, rfl, rfl, ?_, ?_, routeTwo_from_input i o n t1 t2 hni hn1i, rfl⟩
  · simp [fmRun, fmStep, fmInit, fmTwo]
  · simp [routeRun, fmTwo]
  · have hb : (t1 == t2) = false := beq_eq_false_iff_ne.mpr h12
    have hc1 : chainFind [(t1, i, n), (t2, n, n + 1)] t1 = some (t1, i, n) := by
      simp [chainFind, List.find?]
    have hc2 : chainFind [(t1, i, n), (t2, n, n + 1)] t2 = some (t2, n, n + 1) := by
      simp [chainFind, List.find?, hb]
    simp [routeRun, hc1, hc2, fmTwo]

/-- Concrete instantiation of `filterMgr_chain`: channels 0/1, fresh
channels from 2, filters 10 and 20. -/
theorem filterMgr_chain_witness :
    fmRun (fmInit 0 1 2) [FMEvent.add 10, FMEvent.add 20] = fmTwo 0 1 2 10 20 ∧
    routeRun (fmTwo 0 1 2 10 20) 0
      [RouteChoice.filt 10, RouteChoice.filt 20, RouteChoice.mgr] = some [10, 20] ∧
    (fmStep (fmTwo 0 1 2 10 20) FMEvent.topChanClosed).closedBot = true := by
  have h := filterMgr_chain 0 1 2 10 20 (by decide) (by decide) (by decide)
  exact ⟨h.1, h.2.2.2.2.2.1, h.2.2.2.2.2.2.2⟩

/-! ## Theorems about `handleFeatures` -/

/-- Claim C4 counterexample: a features value advertising neither
starttls nor mechanisms nor bind makes `handleFeatures` perform zero of
the three negotiation actions, refuting that exactly one action is
performed for every received features value. -/
theorem handleFeatures_counterexample :
    (handleFeatures clSample
      { starttls := false, mechanisms := [], bind := false }).2 = [] ∧
    ¬ (negActions (handleFeatures clSample
      { starttls := false, mechanisms := [], bind := false }).2).length = 1 := by
  decide

/-- Claim C4 (amended): for every received features value
`handleFeatures` performs at most one of the three negotiation actions,
tested in the fixed priority order starttls, then mechanisms, then
bind: if starttls is advertised it sends the starttls element and does
nothing else with that features value; otherwise a non-empty mechanism
list begins SASL authentication; otherwise an advertised bind sends the
bind iq (registering its callback first); when none is advertised no
action is taken; in every case the features value is recorded in
`cl.Features`. -/
theorem handleFeatures_priority (cl : ClientSt) (fe : FeaturesM) :
    (fe.starttls = true → (handleFeatures cl fe).2 = [L3Effect.sendStartTls]) ∧
    (fe.starttls = false → fe.mechanisms ≠ [] →
      (handleFeatures cl fe).2 = [L3Effect.saslBegin fe.mechanisms]) ∧
    (fe.starttls = false → fe.mechanisms = [] → fe.bind = true →
      (handleFeatures cl fe).2 = bindRequest cl) ∧
    (fe.starttls = false → fe.mechanisms = [] → fe.bind = false →
      (handleFeatures cl fe).2 = []) ∧
    (negActions (handleFeatures cl fe).2).length ≤ 1 ∧
    (handleFeatures cl fe).1.features = some fe := by
  obtain ⟨stls, mechs, bnd⟩ := fe
  cases stls <;> cases bnd <;> by_cases hm : mechs = [] <;>
    simp [handleFeatures, chooseSasl, bindRequest, negActions, hm]

/-- Concrete instantiation of `handleFeatures_priority` at a features
value advertising starttls together with mechanisms and bind: only the
starttls element is sent. -/
theorem handleFeatures_priority_witness :
    (handleFeatures clSample
      { starttls := true, mechanisms := ["PLAIN"], bind := true }).2
      = [L3Effect.sendStartTls] :=
  (handleFeatures_priority clSample
    { starttls := true, mechanisms := ["PLAIN"], bind := true }).1 rfl

/-! ## Theorems about `recvTransport` -/

theorem recvRun_append (p : List L1Event) :
    ∀ (o : List (List Nat)), recvRun p = some (o, false) →
      ∀ ext : List L1Event,
        recvRun (p ++ ext)
          = Option.map (fun r => (o ++ r.1, r.2)) (recvRun ext) := by
  induction p with
  | nil =>
    intro o h ext
    simp only [recvRun] at h
    have ho : o = [] := by
      cases h
      rfl
    subst ho
    cases hr : recvRun ext with
    | none => simp [hr]
    | some r => simp [hr]
  | cons ev p ih =>
    intro o h ext
    cases ev with
    | sockGone =>
      simp only [recvRun] at h
      simpa only [List.cons_append, recvRun] using ih o h ext
    | readZero timeout =>
      cases timeout with
      | true =>
        simp only [recvRun] at h
        simpa only [List.cons_append, recvRun] using ih o h ext
      | false =>
        simp only [recvRun] at h
        by_cases hp : p = []
        · simp [hp] at h
        · simp [hp] at h
    | readData d nw =>
      simp only [recvRun] at h
      by_cases hd : d = []
      · simp [hd] at h
      · simp only [if_neg hd] at h
        by_cases hlen : d.length < nw
        · simp [hlen] at h
        · simp only [if_neg hlen] at h
          by_cases hshort : nw < d.length
          · simp only [hshort, if_true] at h
            by_cases hp : p = []
            · simp [hp] at h
            · simp [hp] at h
          · simp only [hshort, if_false] at h
            rcases Option.map_eq_some'.mp h with ⟨w, hw, hres⟩
            have hw2 : w.2 = false := by
              have := congrArg Prod.snd hres
              simpa using this
            have ho : o = d :: w.1 := by
              have := congrArg Prod.fst hres
              simpa using this.symm
            have hw3 : recvRun p = some (w.1, false) := by
              rw [hw]
              cases w
              simp at hw2
              rw [hw2]
            have hcomp := ih w.1 hw3 ext
            simp only [List.cons_append, recvRun, if_neg hd, if_neg hlen, hshort, if_false,
              List.append_eq]
            rw [hcomp, ho]
            cases hr : recvRun ext with
            | none => rfl
            | some r => simp

/-- Claim C6: in the inbound byte-transport loop `recvTransport`, from
any still-running point (chunks `o` delivered so far): (i) a zero-byte
socket read whose error is a deadline expiration is retried and has no
other effect — the run is the same as if the iteration had not
happened; (ii) any other zero-byte read terminates the loop and closes
the destination pipe via the deferred `w.Close()`, cascading shutdown
upstream; (iii) a short write (fewer bytes written than read)
terminates the loop and closes the destination pipe. -/
theorem recvTransport_errors (p : List L1Event) (o : List (List Nat))
    (halive : recvRun p = some (o, false)) :
    (∀ q, recvRun (p ++ (L1Event.readZero true :: q)) = recvRun (p ++ q)) ∧
    recvRun (p ++ [L1Event.readZero false]) = some (o, true) ∧
    (∀ (d : List Nat) (nw : Nat), d ≠ [] → nw < d.length →
      recvRun (p ++ [L1Event.readData d nw]) = some (o ++ [d.take nw], true)) := by
  refine ⟨?_, ?_, ?_⟩
  · intro q
    rw [recvRun_append p o halive (L1Event.readZero true :: q),
      recvRun_append p o halive q]
    rfl
  · rw [recvRun_append p o halive [L1Event.readZero false]]
    simp [recvRun]
  · intro d nw hd hshort
    rw [recvRun_append p o halive [L1Event.readData d nw]]
    have hlen : ¬ d.length < nw := by omega
    simp [recvRun, hd, hlen, hshort]

/-- Concrete instantiation of `recvTransport_errors`: after one
successful 2-byte read, a timeout is transparent and a failing read
closes the pipe. -/
theorem recvTransport_errors_witness :
    recvRun ([L1Event.readData [7, 8] 2] ++ (L1Event.readZero true :: [L1Event.readZero false]))
      = recvRun ([L1Event.readData [7, 8] 2] ++ [L1Event.readZero false]) ∧
    recvRun ([L1Event.readData [7, 8] 2] ++ [L1Event.readZero false])
      = some ([[7, 8]], true) := by
  have h := recvTransport_errors [L1Event.readData [7, 8] 2] [[7, 8]] (by decide)
  exact ⟨h.1 [L1Event.readZero false], h.2.1⟩

/-! ## Theorems about the roster extension -/

/-- Claim C7 (code bug): `rosterMgr` runs `iq, ok := stan.(*Iq)` and
dereferences `iq` without checking `ok`, so the first non-iq stanza
handed over by the roster receive filter — for example any inbound
message — makes it dereference a nil pointer and panic instead of
leaving the roster map unchanged; the pass-through of the receive
filter dies with it.  An iq-set roster push, by contrast, is processed
as the claim describes. -/
theorem rosterMgr_message_panics :
    rosterUpdStep rosterInit wSample = none ∧
    rosterRecvRun rosterInit [wSample] = none ∧
    rosterUpdStep rosterInit rosterPush = some rosterAfterPush ∧
    rosterRecvRun rosterInit [rosterPush, rosterPush]
      = some (rosterAfterPush, [rosterPush, rosterPush]) := by
  refine ⟨rfl, rfl, ?_, ?_⟩ <;> decide

/-! ## Theorems about `statmgr` -/

theorem sendToListener_eq (slot : Option Status) (s : Status) :
    sendToListener slot s = some s := by
  cases slot <;> rfl

theorem smRun_append (cp cr : Bool) (a b : List SMEvent) :
    ∀ st : SMState, smRun cp cr st (a ++ b)
      = Option.bind (smRun cp cr st a) (fun st2 => smRun cp cr st2 b) := by
  induction a with
  | nil =>
    intro st
    rfl
  | cons e a ih =>
    intro st
    cases hs : smStep cp cr st e with
    | none => simp [smRun, hs]
    | some st2 =>
      simp only [List.cons_append, smRun, hs]
      exact ih st2

/-- Claim C5: whenever the manager publishes the terminal status
Shutdown and the pipeline teardown then closes the status manager (the
close call lives in the absent stream driver and is modelled from the
spec by `shutdownTeardown`), every listener queue obtained from
`newListener()` holds a final Shutdown value and is closed by the
manager's deferred closes, and a client that supplied a status channel
at construction has that channel closed after a final Shutdown
notification is delivered to it (delivered whenever the client is ready
to receive it: the deferred send is non-blocking by design, in case the
client no longer reads). -/
theorem statmgr_shutdown (cp cr : Bool) (tr : List SMEvent) (st : SMState)
    (h : smRun cp cr smInit (shutdownTeardown tr) = some st) :
    st.listenersClosed = true ∧
    st.finished = true ∧
    (∀ slot ∈ st.listeners, slot = some StatusShutdown) ∧
    (cp = true → st.clientClosed = true) ∧
    (cp = true → cr = true → st.clientMsgs.getLast? = some StatusShutdown) := by
  rw [shutdownTeardown, smRun_append] at h
  cases hm : smRun cp cr smInit tr with
  | none =>
    rw [hm] at h
    simp at h
  | some stM =>
    rw [hm] at h
    have h2 : smRun cp cr stM [SMEvent.set StatusShutdown, SMEvent.closeMgr] = some st := by
      simpa using h
    by_cases hf : stM.finished = true
    · simp [smRun, smStep, hf] at h2
    · have hf2 : stM.finished = false := by
        cases hb : stM.finished
        · rfl
        · exact absurd hb hf
      have e1 : smStep cp cr stM (SMEvent.set StatusShutdown)
          = some { stM with
                   stat := StatusShutdown,
                   listeners := stM.listeners.map
                     (fun slot => sendToListener slot StatusShutdown) } := by
        simp [smStep, hf2]
      have e2 : smStep cp cr
          { stM with
            stat := StatusShutdown,
            listeners := stM.listeners.map
              (fun slot => sendToListener slot StatusShutdown) }
          SMEvent.closeMgr
          = some (smShutdownState cp cr stM) := by
        simp [smStep, smShutdownState, hf2]
      have hst : st = smShutdownState cp cr stM := by
        simp only [smRun, e1, e2] at h2
        exact (Option.some_inj.mp h2).symm
      subst hst
      refine ⟨rfl, rfl, ?_, ?_, ?_⟩
      · intro slot hmem
        rcases List.mem_map.mp hmem with ⟨a, _, ha⟩
        rw [← ha, sendToListener_eq]
      · intro hcp
        exact hcp
      · intro hcp hcr
        show (stM.clientMsgs ++ (if cp ∧ cr then [StatusShutdown] else [])).getLast?
          = some StatusShutdown
        rw [if_pos ⟨hcp, hcr⟩]
        exact List.getLast?_concat stM.clientMsgs

/-- Concrete instantiation of `statmgr_shutdown`: one listener
registered, one intermediate status, then the shutdown teardown. -/
theorem statmgr_shutdown_witness :
    smWitnessFinal.listenersClosed = true ∧
    smWitnessFinal.clientMsgs.getLast? = some StatusShutdown := by
  have h := statmgr_shutdown true true
    [SMEvent.newListener, SMEvent.set StatusConnected] smWitnessFinal (by decide)
  exact ⟨h.1, h.2.2.2.2 rfl rfl⟩

/-- Claim C8: (i) the `sendToListener` loop returns within two
iterations — it never blocks the publishing manager, whether or not the
consumer is reading — and the single-slot listener queue then holds
exactly the newest status, any stale undelivered value having been
drained; (ii) a listener queue freshly created by `newListener()` is
immediately cold-replayed with the status current at creation time. -/
theorem statmgr_single_slot :
    (∀ (slot : Option Status) (stat : Status),
      sendToListenerLoop 2 slot stat = some (some stat)) ∧
    (∀ (cp cr : Bool) (tr : List SMEvent) (st : SMState),
      smRun cp cr smInit tr = some st → st.finished = false →
      smRun cp cr smInit (tr ++ [SMEvent.newListener])
        = some { st with listeners := st.listeners ++ [some st.stat] }) := by
  constructor
  · intro slot stat
    cases slot <;> rfl
  · intro cp cr tr st h hf
    rw [smRun_append, h]
    simp [smRun, smStep, hf, sendToListener_eq]

/-- Concrete instantiation of `statmgr_single_slot`: a stale Connected
value is overwritten by Bound, and a listener created after the status
reached Connected is replayed with Connected. -/
theorem statmgr_single_slot_witness :
    sendToListenerLoop 2 (some StatusConnected) StatusBound
      = some (some StatusBound) ∧
    smRun false false smInit ([SMEvent.set StatusConnected] ++ [SMEvent.newListener])
      = some { smWitnessMid with listeners := smWitnessMid.listeners ++ [some smWitnessMid.stat] } := by
  constructor
  · exact statmgr_single_slot.1 (some StatusConnected) StatusBound
  · exact statmgr_single_slot.2 false false [SMEvent.set StatusConnected]
      smWitnessMid (by decide) rfl

theorem awaitStatusLoop_pre (waitFor : Status) (pre : List Status) :
    waitFor ≤ StatusShutdown → (∀ x ∈ pre, x < waitFor) →
      ∀ tail : List Status,
        awaitStatusLoop waitFor (pre ++ tail) = awaitStatusLoop waitFor tail := by
  induction pre with
  | nil =>
    intro _ _ tail
    rfl
  | cons x pre ih =>
    intro hwf hpre tail
    have hx : x < waitFor := hpre x (List.mem_cons_self x pre)
    have hx1 : ¬ x = waitFor := ne_of_lt hx
    have hx2 : ¬ x = StatusShutdown := by
      intro hxs
      rw [hxs] at hx
      exact absurd (lt_of_lt_of_le hx hwf) (lt_irrefl _)
    have hx3 : ¬ x > waitFor := not_lt.mpr (le_of_lt hx)
    simp only [List.cons_append, awaitStatusLoop, if_neg hx1, if_neg hx2, if_neg hx3]
    exact ih hwf (fun y hy => hpre y (List.mem_cons_of_mem x hy)) tail

/-- Claim C10: `awaitStatus(waitFor)` returns success as soon as its
listener observes any status equal to or greater than `waitFor` — so a
skipped status does not make the caller wait forever — except that
observing Shutdown while waiting for a smaller status returns an error
even though Shutdown is the greatest status; `awaitStatus(Shutdown)`
itself succeeds when Shutdown is observed (the equality test precedes
the Shutdown test in the loop). -/
theorem awaitStatus_ge (waitFor c : Status) (pre rest : List Status) :
    (waitFor ≤ StatusShutdown → (∀ x ∈ pre, x < waitFor) → waitFor ≤ c →
      (c = waitFor ∨ c ≠ StatusShutdown) →
      awaitStatusLoop waitFor (pre ++ (c :: rest)) = true) ∧
    ((∀ x ∈ pre, x < waitFor) → waitFor < StatusShutdown →
      awaitStatusLoop waitFor (pre ++ (StatusShutdown :: rest)) = false) := by
  constructor
  · intro hwf hpre hc hcs
    rw [awaitStatusLoop_pre waitFor pre hwf hpre]
    by_cases h1 : c = waitFor
    · simp [awaitStatusLoop, h1]
    · have hlt : waitFor < c := lt_of_le_of_ne hc (fun he => h1 he.symm)
      have hcs2 : ¬ c = StatusShutdown := by
        rcases hcs with hcs | hcs
        · exact absurd hcs h1
        · exact hcs
      simp [awaitStatusLoop, h1, hcs2, hlt]
  · intro hpre hwf
    rw [awaitStatusLoop_pre waitFor pre (le_of_lt hwf) hpre]
    have h1 : ¬ StatusShutdown = waitFor := ne_of_gt hwf
    simp [awaitStatusLoop, h1]

/-- Concrete instantiations of `awaitStatus_ge`: waiting for
ConnectedTls succeeds on observing Bound (ConnectedTls was skipped);
waiting for Bound errors on observing Shutdown; waiting for Shutdown
succeeds on observing Shutdown. -/
theorem awaitStatus_ge_witness :
    awaitStatusLoop StatusConnectedTls
      ([StatusUnconnected, StatusConnected] ++ (StatusBound :: [])) = true ∧
    awaitStatusLoop StatusBound
      ([StatusUnconnected, StatusConnected] ++ (StatusShutdown :: [])) = false ∧
    awaitStatusLoop StatusShutdown ([] ++ (StatusShutdown :: [])) = true := by
  refine ⟨?_, ?_, ?_⟩
  · exact (awaitStatus_ge StatusConnectedTls StatusBound
      [StatusUnconnected, StatusConnected] []).1
      (by decide) (by decide) (by decide) (by decide)
  · exact (awaitStatus_ge StatusBound StatusBound
      [StatusUnconnected, StatusConnected] []).2 (by decide) (by decide)
  · exact (awaitStatus_ge StatusShutdown StatusShutdown [] []).1
      (by decide) (by decide) (by decide) (by decide)

/-! ## Theorems about the constructor's duplicate-extension check -/

theorem mergeList_dup (e : List XmlName) :
    ∀ (acc : List XmlName) (n : XmlName), n ∈ acc → n ∈ e →
      ∃ k, mergeList acc e = Except.error k := by
  induction e with
  | nil =>
    intro acc n _ hn
    exact absurd hn (List.not_mem_nil n)
  | cons k r ih =>
    intro acc n hacc hn
    by_cases hk : k ∈ acc
    · exact ⟨k, by simp [mergeList, hk]⟩
    · rcases List.mem_cons.mp hn with hnk | hnr
      · exact absurd (hnk ▸ hacc) hk
      · have hacc2 : n ∈ acc ++ [k] := List.mem_append.mpr (Or.inl hacc)
        rcases ih (acc ++ [k]) n hacc2 hnr with ⟨k2, hk2⟩
        exact ⟨k2, by simp [mergeList, hk, hk2]⟩

theorem mergeList_mem (e : List XmlName) :
    ∀ (acc acc2 : List XmlName) (n : XmlName),
      mergeList acc e = Except.ok acc2 → n ∈ acc → n ∈ acc2 := by
  induction e with
  | nil =>
    intro acc acc2 n h hn
    simp only [mergeList, Except.ok.injEq] at h
    exact h ▸ hn
  | cons k r ih =>
    intro acc acc2 n h hn
    by_cases hk : k ∈ acc
    · simp [mergeList, hk] at h
    · simp only [mergeList, if_neg hk] at h
      exact ih (acc ++ [k]) acc2 n h (List.mem_append.mpr (Or.inl hn))

theorem mergeList_mem_new (e : List XmlName) :
    ∀ (acc acc2 : List XmlName) (n : XmlName),
      mergeList acc e = Except.ok acc2 → n ∈ e → n ∈ acc2 := by
  induction e with
  | nil =>
    intro acc acc2 n _ hn
    exact absurd hn (List.not_mem_nil n)
  | cons k r ih =>
    intro acc acc2 n h hn
    by_cases hk : k ∈ acc
    · simp [mergeList, hk] at h
    · simp only [mergeList, if_neg hk] at h
      rcases List.mem_cons.mp hn with hnk | hnr
      · exact mergeList_mem r (acc ++ [k]) acc2 n h
          (List.mem_append.mpr (Or.inr (hnk ▸ List.mem_singleton_self k)))
      · exact ih (acc ++ [k]) acc2 n h hnr

theorem mergeExts_dup (exts : List (List XmlName)) :
    ∀ (acc : List XmlName) (n : XmlName), n ∈ acc →
      (∃ e, e ∈ exts ∧ n ∈ e) →
      ∃ k, mergeExts acc exts = Except.error k := by
  induction exts with
  | nil =>
    intro acc n _ hwit
    rcases hwit with ⟨e, he, _⟩
    exact absurd he (List.not_mem_nil e)
  | cons e r ih =>
    intro acc n hacc hwit
    cases hml : mergeList acc e with
    | error k => exact ⟨k, by simp [mergeExts, hml]⟩
    | ok acc2 =>
      rcases hwit with ⟨e0, he0, hne0⟩
      rcases List.mem_cons.mp he0 with he0e | he0r
      · rcases mergeList_dup e acc n hacc (he0e ▸ hne0) with ⟨k, hk⟩
        rw [hk] at hml
        exact absurd hml (by simp)
      · have hn2 : n ∈ acc2 := mergeList_mem e acc acc2 n hml hacc
        rcases ih acc2 n hn2 ⟨e0, he0r, hne0⟩ with ⟨k, hk⟩
        exact ⟨k, by simp [mergeExts, hml, hk]⟩

theorem mergeExts_split (pre : List (List XmlName)) :
    ∀ (mid post : List (List XmlName)) (e1 e2 : List XmlName) (n : XmlName)
      (acc : List XmlName), n ∈ e1 → n ∈ e2 →
      ∃ k, mergeExts acc (pre ++ (e1 :: (mid ++ (e2 :: post)))) = Except.error k := by
  induction pre with
  | nil =>
    intro mid post e1 e2 n acc h1 h2
    cases hml : mergeList acc e1 with
    | error k => exact ⟨k, by simp [mergeExts, hml]⟩
    | ok acc2 =>
      have hn2 : n ∈ acc2 := mergeList_mem_new e1 acc acc2 n hml h1
      have hwit : ∃ e, e ∈ (mid ++ (e2 :: post)) ∧ n ∈ e :=
        ⟨e2, List.mem_append.mpr (Or.inr (List.mem_cons_self e2 post)), h2⟩
      rcases mergeExts_dup (mid ++ (e2 :: post)) acc2 n hn2 hwit with ⟨k, hk⟩
      exact ⟨k, by simp [mergeExts, hml, hk]⟩
  | cons e pre ih =>
    intro mid post e1 e2 n acc h1 h2
    cases hml : mergeList acc e with
    | error k => exact ⟨k, by simp [mergeExts, hml]⟩
    | ok acc2 =>
      rcases ih mid post e1 e2 n acc2 h1 h2 with ⟨k, hk⟩
      exact ⟨k, by simp [mergeExts, hml, hk]⟩

/-- Claim C9: if two of the extensions handed to the constructor
(after the always-installed roster and bind extensions are appended)
register the same qualified XML name, `NewClient` returns the
duplicate-handler error: no client is created and none of the network
steps (DNS SRV lookup, TCP dial, stream-open handshake) is performed,
so the failure is synchronous and precedes any stream traffic. -/
theorem newClient_duplicate_extension (userExts pre mid post : List (List XmlName))
    (e1 e2 : List XmlName) (n : XmlName)
    (hsplit : userExts ++ [rosterExtNames, bindExtNames]
      = pre ++ (e1 :: (mid ++ (e2 :: post))))
    (h1 : n ∈ e1) (h2 : n ∈ e2) :
    ∃ k, newClientSetup userExts = (Except.error k, []) := by
  have herr : ∃ k, mergeExts [] (userExts ++ [rosterExtNames, bindExtNames])
      = Except.error k := by
    rw [hsplit]
    exact mergeExts_split pre mid post e1 e2 n [] h1 h2
  rcases herr with ⟨k, hk⟩
  exact ⟨k, by simp [newClientSetup, hk]⟩

/-- Concrete instantiation of `newClient_duplicate_extension`: a user
extension registering the roster query name collides with the
always-installed roster extension. -/
theorem newClient_duplicate_extension_witness :
    ∃ k, newClientSetup [[("jabber:iq:roster", "query")]] = (Except.error k, []) :=
  newClient_duplicate_extension [[("jabber:iq:roster", "query")]]
    [] [] [bindExtNames]
    [("jabber:iq:roster", "query")] rosterExtNames ("jabber:iq:roster", "query")
    rfl (by decide) (by decide)

end Xmpp2
